import Mathlib

/-!
Verification development for the astro-content-ai-translator repository
(src/src/core.ts, src/src/integration section).  The code stores documents
as raw text consisting of an optional frontmatter header (delimited by
lines of three dashes) followed by a body.  All header manipulation in the
repository goes through the gray-matter library: `matter(raw)` parses the
header into a key/value record plus the remaining content, and
`matter.stringify(content, data)` re-serializes the whole record into a
fresh header.  We model strings as lists of characters (`Str`) so that the
parsing functions are structurally recursive and kernel-computable.
-/

/-- Character-list strings: the representation used throughout the model. -/
abbrev Str := List Char

/-- Split a character list at every occurrence of `c` (the pieces do not
contain `c`).  Mirrors JavaScript `string.split(c)`: the result is never
empty, and a trailing separator yields a trailing empty piece. -/
def splitOnChar (c : Char) : Str → List Str
  | [] => [[]]
  | a :: as =>
    if a = c then [] :: splitOnChar c as
    else
      match splitOnChar c as with
      | [] => [[a]]
      | x :: xs => (a :: x) :: xs

/-- Join pieces with the separator `c`: inverse of `splitOnChar`. -/
def joinChar (c : Char) : List Str → Str
  | [] => []
  | [x] => x
  | x :: y :: xs => x ++ c :: joinChar c (y :: xs)

/-!
## Frontmatter data model

The repository only ever reads and writes two shapes of header value:
plain scalar strings (title, description, permalink, hash, ...) and
one-level string maps (the `alternates` map and the `_ai` metadata block).
This matches spec section 3 and the gray-matter/js-yaml usage in core.ts.
-/

/-- A frontmatter value: a scalar string or a flat string-to-string map. -/
inductive YVal where
  | scalar (s : Str)
  | map (kvs : List (Str × Str))
deriving DecidableEq

/-- Frontmatter record: ordered key/value pairs (JavaScript object
insertion order). -/
abbrev FM := List (Str × YVal)

/-- First binding of `k` in an association list (JavaScript property
lookup; parsed objects have unique keys). -/
def assocFind {α : Type} (m : List (Str × α)) (k : Str) : Option α :=
  match m with
  | [] => none
  | (a, v) :: rest => if a = k then some v else assocFind rest k

/-- JavaScript object property assignment: an existing key keeps its
position, a new key is appended at the end. -/
def assocSet {α : Type} (m : List (Str × α)) (k : Str) (v : α) : List (Str × α) :=
  match m with
  | [] => [(k, v)]
  | (a, w) :: rest => if a = k then (a, v) :: rest else (a, w) :: assocSet rest k v

/-!
## Header line rendering and parsing

Model of the js-yaml serialization (`matter.stringify`'s engine) restricted
to the value shapes above, and of the corresponding parse.  The renderer is
canonical: `key: value` for scalars, `key:` plus two-space-indented
`sub: val` lines for maps.  The parser is lenient (comment, blank and
unrecognized lines are skipped; indented `sub: val` lines attach to the
nearest preceding `key:` line), mirroring how js-yaml reads exactly the
documents this renderer produces.
-/

/-- The line is empty or all spaces. -/
def lineIsBlank (l : Str) : Bool := l.all (· = ' ')

/-- The line's first non-space character is the comment marker. -/
def lineIsComment (l : Str) : Bool :=
  (l.dropWhile (· = ' ')).head? == some '#'

/-- The line starts with whitespace (continuation material). -/
def lineIsIndented (l : Str) : Bool := l.head? == some ' '

/-- The line starts with the three-dash delimiter (gray-matter finds the
closing delimiter by searching for a newline followed by three dashes). -/
def startsWithDashes (l : Str) : Bool := decide (l.take 3 = ['-', '-', '-'])

/-- Split a line at its first colon: `some (key, rest)`. -/
def splitAtChar (c : Char) : Str → Option (Str × Str)
  | [] => none
  | a :: as =>
    if a = c then some ([], as)
    else
      match splitAtChar c as with
      | some (k, v) => some (a :: k, v)
      | none => none

/-- Strip leading and trailing spaces. -/
def trimSp (s : Str) : Str :=
  ((s.dropWhile (· = ' ')).reverse.dropWhile (· = ' ')).reverse

/-- Parse one two-space-indented `sub: val` line of a map block. -/
def subEntryOf (l : Str) : Option (Str × Str) :=
  match l with
  | ' ' :: ' ' :: rest =>
    match splitAtChar ':' rest with
    | some (k, v) => some (k, trimSp v)
    | none => none
  | _ => none

/-- Close the currently open map field, if any. -/
def flushAcc : Option (Str × List (Str × Str)) → FM
  | none => []
  | some (k, subs) => [(k, .map subs)]

/-- One-pass header parse: `acc` is the currently open `key:` map block. -/
def parseHeaderGo (acc : Option (Str × List (Str × Str))) : List Str → FM
  | [] => flushAcc acc
  | l :: rest =>
    if lineIsIndented l then
      match acc with
      | some (k, subs) =>
        match subEntryOf l with
        | some kv => parseHeaderGo (some (k, subs ++ [kv])) rest
        | none => parseHeaderGo (some (k, subs)) rest
      | none => parseHeaderGo none rest
    else
      flushAcc acc ++
        (if lineIsBlank l || lineIsComment l then parseHeaderGo none rest
         else
           match splitAtChar ':' l with
           | none => parseHeaderGo none rest
           | some (k, v) =>
             if trimSp v = [] then parseHeaderGo (some (k, [])) rest
             else (k, .scalar (trimSp v)) :: parseHeaderGo none rest)

/-- Parse a header block (list of lines) into a frontmatter record. -/
def parseHeader (ls : List Str) : FM := parseHeaderGo none ls

/-- Render one frontmatter field as header lines. -/
def renderVal (k : Str) : YVal → List Str
  | .scalar s => [k ++ ':' :: ' ' :: s]
  | .map kvs => (k ++ [':']) :: kvs.map (fun kv => ' ' :: ' ' :: (kv.1 ++ ':' :: ' ' :: kv.2))

/-- Render a frontmatter record as header lines (canonical form). -/
def renderHeader (fm : FM) : List Str :=
  (fm.map (fun kv => renderVal kv.1 kv.2)).flatten

/-!
## Well-formedness

Side conditions under which the canonical renderer and the parser are
mutually inverse: keys are nonempty, contain no colon or newline and do
not start with a space, comment marker or dash; scalar values are
nonempty, newline-free and have no leading/trailing space.
-/

/-- A well-formed header key. -/
def wfName : Str → Bool
  | [] => false
  | c :: rest =>
    !(c == ' ') && !(c == '#') && !(c == '-') && !(c == ':') && !(c == '\n') &&
      !(decide ((':' : Char) ∈ rest)) && !(decide (('\n' : Char) ∈ rest))

/-- A well-formed scalar value. -/
def wfScalar (s : Str) : Bool :=
  !(decide (s = [])) && !(decide (('\n' : Char) ∈ s)) &&
    !(s.head? == some ' ') && !(s.getLast? == some ' ')

/-- A well-formed frontmatter value. -/
def wfVal : YVal → Bool
  | .scalar s => wfScalar s
  | .map kvs => !(decide (kvs = [])) && kvs.all (fun kv => wfName kv.1 && wfScalar kv.2)

/-- A well-formed frontmatter record. -/
def wfFM (fm : FM) : Bool := fm.all (fun kv => wfName kv.1 && wfVal kv.2)

/-- The rendered form of one map entry line. -/
def subLineOf (kv : Str × Str) : Str := ' ' :: ' ' :: (kv.1 ++ ':' :: ' ' :: kv.2)

/-!
## Document-level gray-matter model

`matterParse` models `matter(raw)` (gray-matter v4) on documents whose
first line is exactly the three-dash delimiter: the closing delimiter is
the next line starting with three dashes (gray-matter searches for the
substring newline-plus-three-dashes); the content is everything after
those dashes with one leading carriage return and one leading newline
stripped.  A document not starting with the delimiter parses to an empty
record with the content equal to the whole input.  `matterStringify`
models `matter.stringify(content, data)`: delimiter line, rendered
header, delimiter line, then the content with a final newline ensured;
an empty record produces no header block at all.
-/

/-- The result of a gray-matter parse: data record plus content. -/
structure GrayFile where
  data : FM
  content : Str
deriving DecidableEq

/-- The frontmatter delimiter line. -/
def dashesLine : Str := ['-', '-', '-']

/-- Split lines at the first line starting with three dashes:
`(header lines, close line, following lines)`. -/
def splitAtClose : List Str → Option (List Str × Str × List Str)
  | [] => none
  | l :: rest =>
    if startsWithDashes l then some ([], l, rest)
    else
      match splitAtClose rest with
      | some (hdr, cl, after) => some (l :: hdr, cl, after)
      | none => none

/-- Split a character string into its lines. -/
def splitLines (s : Str) : List Str := splitOnChar '\n' s

/-- Join lines back into a character string. -/
def joinLines (ls : List Str) : Str := joinChar '\n' ls

/-- Strip one leading carriage return, then one leading newline
(gray-matter's content normalization after the closing delimiter). -/
def stripLead (s : Str) : Str :=
  let s1 := if s.head? = some '\r' then s.tail else s
  if s1.head? = some '\n' then s1.tail else s1

/-- Append a final newline unless one is already present
(gray-matter's `newline` helper used by `stringify`). -/
def ensureNL (s : Str) : Str :=
  if s.getLast? = some '\n' then s else s ++ ['\n']

/-- Build the parse result from the outcome of the close-delimiter search
(no close found: the whole remainder is the header block and the content
is empty). -/
def afterOpen : Option (List Str × Str × List Str) → List Str → GrayFile
  | none, rest => ⟨parseHeader rest, []⟩
  | some (hdr, closeLine, after), _ =>
    ⟨parseHeader hdr, stripLead (joinLines (closeLine.drop 3 :: after))⟩

/-- Model of `matter(raw)` (first line exactly the delimiter opens a
header; `splitLines` never returns an empty list, so `headD` is total). -/
def matterParse (raw : Str) : GrayFile :=
  let ls := splitLines raw
  if ls.headD [] = dashesLine then afterOpen (splitAtClose ls.tail) ls.tail
  else ⟨[], raw⟩

/-- Model of `matter.stringify(content, data)`. -/
def matterStringify (content : Str) (data : FM) : Str :=
  if data = [] then ensureNL content
  else joinLines (dashesLine :: renderHeader data ++ [dashesLine]) ++ '\n' :: ensureNL content

/-!
## updateFileAlternates (src/src/core.ts lines 1170-1197)

Pure model of the frontmatter-patching body of `updateFileAlternates`
(the `existsSync` precondition is handled by the caller model: the
function is only invoked on the text of an existing file).  The raw file
text is parsed with gray-matter, the `alternates` record is fetched (a
missing or non-map value yields a fresh empty record), and if the entry
for `locale` is not already exactly `permalink` the entry is assigned and
the whole document re-serialized.  Returns (modified?, resulting text).
-/

/-- The `alternates` frontmatter key. -/
def altKey : Str := ("alternates".data)

/-- The alternates record of a parsed document (missing or scalar-valued
`alternates` gives the empty record, matching `frontmatter.alternates || \x7b\x7d`
for the shapes the pipeline produces). -/
def altRecordOf (data : FM) : List (Str × Str) :=
  match assocFind data altKey with
  | some (.map m) => m
  | _ => []

/-- Model of `updateFileAlternates(filePath, locale, permalink)` acting on
the file's text. -/
def updateFileAlternates (raw : Str) (locale permalink : Str) : Bool × Str :=
  if assocFind (altRecordOf (matterParse raw).data) locale = some permalink then (false, raw)
  else
    (true, matterStringify (matterParse raw).content
      (assocSet (matterParse raw).data altKey
        (.map (assocSet (altRecordOf (matterParse raw).data) locale permalink))))

/-- Re-serialization of a document with an empty replacement set: parse
with gray-matter and stringify the unchanged record (the exact composition
`matter.stringify(file.content, file.data)` used by the code whenever it
rewrites a header). -/
def reserializeDoc (raw : Str) : Str :=
  matterStringify (matterParse raw).content (matterParse raw).data

/-!
## Path/Locale resolver (src/src/core.ts lines 610-653)

`getLocaleFromPath`, `getBasePath`, `getTargetPath` translated directly.
The regular expression `^locale/` used by `getBasePath` acts, for locale
codes free of regex metacharacters, exactly as a literal-prefix strip,
which is how it is modelled here.
-/

/-- The configuration record resolved by the integration
(src integration section, `ResolvedConfig`). -/
structure ResolvedConfig where
  model : Str
  contentDir : Str
  root : Str
  locales : List Str
  defaultLocale : Str
  updateAlternates : Bool
deriving DecidableEq

/-- Boolean prefix test on character lists. -/
def leadsWith : Str → Str → Bool
  | [], _ => true
  | _ :: _, [] => false
  | a :: ps, b :: ss => a == b && leadsWith ps ss

/-- `getLocaleFromPath`: the first path segment, when it is a configured
non-default locale, is the locale; otherwise the default locale. -/
def getLocaleFromPath (relativePath : Str) (config : ResolvedConfig) : Str :=
  if (splitOnChar '/' relativePath).headD [] ∈ config.locales ∧
      (splitOnChar '/' relativePath).headD [] ≠ config.defaultLocale
  then (splitOnChar '/' relativePath).headD []
  else config.defaultLocale

/-- `getBasePath`: strip a leading `locale/` segment (no-op for the
default locale or when the path does not start with that segment). -/
def getBasePath (relativePath locale : Str) (config : ResolvedConfig) : Str :=
  if locale = config.defaultLocale then relativePath
  else if leadsWith (locale ++ ['/']) relativePath then
    relativePath.drop (locale.length + 1)
  else relativePath

/-- `getTargetPath`: re-prefix the base path with the target locale
(unprefixed for the default locale). -/
def getTargetPath (relativePath sourceLocale targetLocale : Str)
    (config : ResolvedConfig) : Str :=
  if targetLocale = config.defaultLocale then getBasePath relativePath sourceLocale config
  else targetLocale ++ '/' :: getBasePath relativePath sourceLocale config

/-!
## parseTranslateTo (src/src/core.ts lines 618-638) and claim C7
-/

/-- The possible shapes of the `_translateTo` frontmatter value as the
code distinguishes them: absent, explicit false, an array, a string, or
any other value (numbers, true, objects - all fall through to the final
`return false`). -/
inductive TransVal where
  | undef
  | boolFalse
  | arr (ls : List Str)
  | str (s : Str)
  | other
deriving DecidableEq

/-- `parseTranslateTo`: none models the function's `false` result. -/
def parseTranslateTo (value : TransVal) (sourceLocale : Str)
    (config : ResolvedConfig) : Option (List Str) :=
  match value with
  | .undef => none
  | .boolFalse => none
  | .arr ls => some (ls.filter (fun l => l != sourceLocale))
  | .str s =>
    if s = ("all".data) then some (config.locales.filter (fun l => l != sourceLocale))
    else some ([s].filter (fun l => l != sourceLocale))
  | .other => none

/-!
## The translate pipeline (src/src/core.ts lines 887-1086)

Pure model of the second (current) `translate` implementation.  All I/O
is abstracted into oracles: `fsExists` models `existsSync` on a path,
`pe` models a successful `findFileByPermalink(contentDir, locale,
permalink, config)` lookup, and `oracle i` models the outcome of the
`translateContent` call for the i-th unit of work (the translated
frontmatter fields and body on success, the thrown error message on
failure).  File writes are collected as (path, text) pairs instead of
being performed.  The `translate` model returns either the thrown
missing-API-key error or the result list together with the write list.
-/

/-- JS `link.startsWith("http")`. -/
def startsWithHttp (s : Str) : Bool := leadsWith ("http".data) s

/-- The scanned source-file record (the `SourceFile` interface), with
`translateTo` already computed by `parseTranslateTo` (none models
`false`). -/
structure SourceFile where
  path : Str
  relativePath : Str
  locale : Str
  frontmatter : FM
  content : Str
  raw : Str
  hash : Str
  translateTo : Option (List Str)
deriving DecidableEq

/-- `frontmatter.alternates as Record<string, string> | undefined`. -/
def fmAlternates (fm : FM) : Option (List (Str × Str)) :=
  match assocFind fm altKey with
  | some (.map m) => some m
  | _ => none

/-- JS-truthy lookup `alternates?.[t]`: the entry when present and
nonempty (the empty string is falsy). -/
def altTruthy (alt : Option (List (Str × Str))) (t : Str) : Option Str :=
  match alt with
  | none => none
  | some m =>
    match assocFind m t with
    | some v => if v = [] then none else some v
    | none => none

/-- The `permalink` frontmatter key. -/
def permalinkKey : Str := ("permalink".data)

/-- The `title` frontmatter key. -/
def titleKey : Str := ("title".data)

/-- The `description` frontmatter key. -/
def descriptionKey : Str := ("description".data)

/-- The `_ai` metadata key. -/
def aiKey : Str := ("_ai".data)

/-- Last path segment (node `basename`). -/
def basenameOf (path : Str) : Str := (splitOnChar '/' path).getLastD []

/-- Boolean suffix test. -/
def endsWithStr (suf s : Str) : Bool := leadsWith suf.reverse s.reverse

/-- Strip a trailing `.mdx` or `.md` extension (the regex
`\.(mdx?|md)$`). -/
def stripMdExt (s : Str) : Str :=
  if endsWithStr (".mdx".data) s then s.take (s.length - 4)
  else if endsWithStr (".md".data) s then s.take (s.length - 3)
  else s

/-- `getPermalink(source)`: the `permalink` frontmatter string if
present, else the extension-free filename, with `index` mapping to the
empty permalink (homepage). -/
def getPermalink (source : SourceFile) : Str :=
  match assocFind source.frontmatter permalinkKey with
  | some (.scalar v) => v
  | _ =>
    if stripMdExt (basenameOf source.path) = ("index".data) then []
    else stripMdExt (basenameOf source.path)

/-- Drop an absolute-URL entry (the guard `&& !v.startsWith("http")`
applied to an already-truthy lookup). -/
def altNonUrl : Option Str → Option Str
  | some v => if startsWithHttp v then none else some v
  | none => none

/-- The permalink chosen for the translated file (core.ts lines 986-994):
the source's alternates entry for the target locale when it is truthy and
not an absolute URL, otherwise the source permalink. -/
def targetPermalinkOf (source : SourceFile) (targetLocale : Str) : Str :=
  (altNonUrl (altTruthy (fmAlternates source.frontmatter) targetLocale)).getD
    (getPermalink source)

/-- JS falsiness of an optional string (`!newAlternates[locale]`): absent
or empty. -/
def strFalsy : Option Str → Bool
  | none => true
  | some v => decide (v = [])

/-- Rebuild of the translated file's alternates map (core.ts lines
997-1017): copy the source entries whose value is not an absolute URL,
insert the source locale when missing or falsy, then assign the target
locale. -/
def buildNewAlternates (alt : Option (List (Str × Str)))
    (sourceLocale sourcePermalink targetLocale targetPermalink : Str) :
    List (Str × Str) :=
  let n1 := (alt.getD []).filter (fun kv => !(startsWithHttp kv.2))
  let n2 :=
    if strFalsy (assocFind n1 sourceLocale) then assocSet n1 sourceLocale sourcePermalink
    else n1
  assocSet n2 targetLocale targetPermalink

/-- JS truthiness of a frontmatter value (objects are truthy, the empty
string is falsy). -/
def yTruthy : Option YVal → Bool
  | none => false
  | some (.scalar s) => !(decide (s = []))
  | some (.map _) => true

/-- Fold the translated fields into the output record
(`if (value) outputFrontmatter[key] = value`). -/
def applyTranslated (ofm : FM) (tfm : List (Str × Str)) : FM :=
  tfm.foldl (fun acc kv => if kv.2 = [] then acc else assocSet acc kv.1 (.scalar kv.2)) ofm

/-- Build the translated output document (core.ts lines 975-1038):
copy non-underscore, non-title/description/alternates fields, set the
permalink, rebuild alternates when configured, merge translated fields,
fall back to the source title, attach the `_ai` metadata block, and
stringify with the translated body. -/
def renderOutput (config : ResolvedConfig) (source : SourceFile) (targetLocale : Str)
    (tfm : List (Str × Str)) (tcontent : Str) (today : Str) : Str :=
  let ofm0 : FM := source.frontmatter.filter (fun kv =>
    !(leadsWith ("_".data) kv.1) && !(decide (kv.1 = titleKey)) &&
      !(decide (kv.1 = descriptionKey)) && !(decide (kv.1 = altKey)))
  let ofm1 := assocSet ofm0 permalinkKey (.scalar (targetPermalinkOf source targetLocale))
  let ofm2 :=
    if config.updateAlternates then
      assocSet ofm1 altKey (.map (buildNewAlternates (fmAlternates source.frontmatter)
        source.locale (getPermalink source) targetLocale
        (targetPermalinkOf source targetLocale)))
    else ofm1
  let ofm3 := applyTranslated ofm2 tfm
  let ofm4 :=
    if !(yTruthy (assocFind ofm3 titleKey)) && yTruthy (assocFind source.frontmatter titleKey)
    then assocSet ofm3 titleKey ((assocFind source.frontmatter titleKey).getD (.scalar []))
    else ofm3
  let ofm5 := assocSet ofm4 aiKey (.map [(("source".data), source.relativePath),
    (("hash".data), source.hash), (("model".data), config.model), (("date".data), today)])
  matterStringify tcontent ofm5

/-- The per-unit result record (the `TranslationResult` interface;
`alternatesUpdated` is [] when the field would be undefined). -/
inductive TStatus where
  | created
  | skipped
  | error
deriving DecidableEq

/-- One entry of the returned batch-result list. -/
structure TranslationResult where
  source : Str
  target : Str
  locale : Str
  status : TStatus
  errorMsg : Option Str
  alternatesUpdated : List Str
deriving DecidableEq

/-- A unit of work that survived the planning phase. -/
structure WorkItem where
  source : SourceFile
  targetLocale : Str
  targetRelPath : Str
  targetPath : Str
deriving DecidableEq

/-- One step of the planning loop: an immediate result or a unit of
work. -/
inductive PlanStep where
  | done (r : TranslationResult)
  | work (w : WorkItem)
deriving DecidableEq

/-- Node `join(a, b)` modeled as slash concatenation. -/
def joinPath (a b : Str) : Str := a ++ '/' :: b

/-- JS `s.includes(pat)`: the pattern occurs as a contiguous substring. -/
def containsSub (pat : Str) : Str → Bool
  | [] => pat.isEmpty
  | a :: as => leadsWith pat (a :: as) || containsSub pat as

/-- The `options.file` filter:
`s.relativePath.includes(file) || basename(s.path).includes(file)`. -/
def fileFilterHit (file : Str) (s : SourceFile) : Bool :=
  containsSub file s.relativePath || containsSub file (basenameOf s.path)

/-- The options accepted by `translate`. -/
structure TranslateOptions where
  file : Option Str
  dryRun : Bool
  force : Bool
deriving DecidableEq

/-- The source list after the `translateTo !== false` and `options.file`
filters. -/
def filteredSources (options : TranslateOptions) (sources : List SourceFile) :
    List SourceFile :=
  match options.file with
  | none => sources.filter (fun s => s.translateTo.isSome)
  | some f => (sources.filter (fun s => s.translateTo.isSome)).filter (fileFilterHit f)

/-- The (source, target locale) pairs visited by the nested planning
loops. -/
def unitsOf (sources : List SourceFile) : List (SourceFile × Str) :=
  (sources.map (fun s => (s.translateTo.getD []).map (fun t => (s, t)))).flatten

/-- The body of the permalink-based skip test applied to the truthy
alternates lookup. -/
def permalinkTest (pe : Str → Str → Bool) (t : Str) : Option Str → Bool
  | some v => !(startsWithHttp v) && pe t v
  | none => false

/-- The permalink-based skip test (core.ts lines 931-944): the alternates
entry for the target locale is truthy, not an absolute URL, and
`findFileByPermalink` finds a file. -/
def permalinkHit (pe : Str → Str → Bool) (s : SourceFile) (t : Str) : Bool :=
  permalinkTest pe t (altTruthy (fmAlternates s.frontmatter) t)

/-- One iteration of the planning loop (core.ts lines 921-952). -/
def planOne (config : ResolvedConfig) (options : TranslateOptions)
    (fsExists : Str → Bool) (pe : Str → Str → Bool)
    (s : SourceFile) (t : Str) : PlanStep :=
  if fsExists (joinPath (joinPath config.root config.contentDir)
      (getTargetPath s.relativePath s.locale t config)) && !options.force then
    .done ⟨s.relativePath, getTargetPath s.relativePath s.locale t config, t,
      .skipped, none, []⟩
  else if permalinkHit pe s t && !options.force then
    .done ⟨s.relativePath, getTargetPath s.relativePath s.locale t config, t,
      .skipped, none, []⟩
  else if options.dryRun then
    .done ⟨s.relativePath, getTargetPath s.relativePath s.locale t config, t,
      .created, none, []⟩
  else
    .work ⟨s, t, getTargetPath s.relativePath s.locale t config,
      joinPath (joinPath config.root config.contentDir)
        (getTargetPath s.relativePath s.locale t config)⟩

/-- All planning steps in visit order. -/
def planSteps (config : ResolvedConfig) (options : TranslateOptions)
    (fsExists : Str → Bool) (pe : Str → Str → Bool)
    (sources : List SourceFile) : List PlanStep :=
  (unitsOf (filteredSources options sources)).map
    (fun u => planOne config options fsExists pe u.1 u.2)

/-- Results pushed during planning (skips and dry-run creations). -/
def planResults (steps : List PlanStep) : List TranslationResult :=
  steps.filterMap (fun st => match st with | .done r => some r | .work _ => none)

/-- Units of work collected for the execution loop. -/
def planWork (steps : List PlanStep) : List WorkItem :=
  steps.filterMap (fun st => match st with | .done _ => none | .work w => some w)

/-- The translated payload returned by a successful `translateContent`
call. -/
structure TPayload where
  fm : List (Str × Str)
  content : Str
deriving DecidableEq

/-- One iteration of the execution loop (core.ts lines 959-1071): a
failing translation yields an error result and no writes; a successful
one writes the rendered output to the target path and, when
`updateAlternates` is set and the source file's entry changes, also
rewrites the source file. -/
def execUnit (config : ResolvedConfig) (today : Str)
    (outcome : Except Str TPayload) (w : WorkItem) :
    TranslationResult × List (Str × Str) :=
  match outcome with
  | .error m =>
    (⟨w.source.relativePath, w.targetRelPath, w.targetLocale, .error, some m, []⟩, [])
  | .ok p =>
    if config.updateAlternates then
      if (updateFileAlternates w.source.raw w.targetLocale
          (targetPermalinkOf w.source w.targetLocale)).1 then
        (⟨w.source.relativePath, w.targetRelPath, w.targetLocale, .created, none,
            [w.source.relativePath]⟩,
          [(w.targetPath, renderOutput config w.source w.targetLocale p.fm p.content today),
            (w.source.path, (updateFileAlternates w.source.raw w.targetLocale
              (targetPermalinkOf w.source w.targetLocale)).2)])
      else
        (⟨w.source.relativePath, w.targetRelPath, w.targetLocale, .created, none, []⟩,
          [(w.targetPath, renderOutput config w.source w.targetLocale p.fm p.content today)])
    else
      (⟨w.source.relativePath, w.targetRelPath, w.targetLocale, .created, none, []⟩,
        [(w.targetPath, renderOutput config w.source w.targetLocale p.fm p.content today)])

/-- The message of the only exception `translate` itself throws. -/
def apiKeyErrorMsg : Str :=
  ("OPENAI_API_KEY not found.\n\nAdd to .env file:\n  OPENAI_API_KEY=sk-...\n\n" ++
    "Or set environment variable.").data

/-- Model of `translate(config, options)` (named `translateRun` because
the bare name collides with an existing Mathlib declaration). -/
def translateRun (config : ResolvedConfig) (options : TranslateOptions)
    (apiKey : Option Str) (sources : List SourceFile)
    (fsExists : Str → Bool) (pe : Str → Str → Bool)
    (oracle : Nat → Except Str TPayload) (today : Str) :
    Except Str (List TranslationResult × List (Str × Str)) :=
  if apiKey.isNone && !options.dryRun then .error apiKeyErrorMsg
  else
    .ok (planResults (planSteps config options fsExists pe sources) ++
        ((planWork (planSteps config options fsExists pe sources)).enum.map
          (fun iw => (execUnit config today (oracle iw.1) iw.2).1)),
      (((planWork (planSteps config options fsExists pe sources)).enum.map
          (fun iw => (execUnit config today (oracle iw.1) iw.2).2)).flatten))

/-- Specification-side description of one dry-run result: skipped when
the target file already exists or the permalink lookup finds an existing
translation (and force is not set), created otherwise; never an error. -/
def dryRunResult (config : ResolvedConfig) (options : TranslateOptions)
    (fsExists : Str → Bool) (pe : Str → Str → Bool)
    (s : SourceFile) (t : Str) : TranslationResult :=
  if (fsExists (joinPath (joinPath config.root config.contentDir)
        (getTargetPath s.relativePath s.locale t config)) || permalinkHit pe s t)
      && !options.force
  then ⟨s.relativePath, getTargetPath s.relativePath s.locale t config, t,
    .skipped, none, []⟩
  else ⟨s.relativePath, getTargetPath s.relativePath s.locale t config, t,
    .created, none, []⟩

theorem splitOnChar_ne_nil (c : Char) (s : Str) : splitOnChar c s ≠ [] := by
  induction s with
  | nil => simp [splitOnChar]
  | cons a as ih =>
    simp only [splitOnChar]
    split
    · simp
    · cases h : splitOnChar c as with
      | nil => simp
      | cons x xs => simp

theorem joinChar_splitOnChar (c : Char) (s : Str) :
    joinChar c (splitOnChar c s) = s := by
  induction s with
  | nil => simp [splitOnChar, joinChar]
  | cons a as ih =>
    simp only [splitOnChar]
    split
    · rename_i h
      cases h2 : splitOnChar c as with
      | nil => exact absurd h2 (splitOnChar_ne_nil c as)
      | cons x xs =>
        rw [h2] at ih
        simp [joinChar, ← ih, h]
    · cases h2 : splitOnChar c as with
      | nil => exact absurd h2 (splitOnChar_ne_nil c as)
      | cons x xs =>
        rw [h2] at ih
        cases xs with
        | nil => simp_all [joinChar]
        | cons y ys => simp_all [joinChar]

theorem splitOnChar_not_mem {c : Char} {s : Str} (h : c ∉ s) :
    splitOnChar c s = [s] := by
  induction s with
  | nil => simp [splitOnChar]
  | cons a as ih =>
    simp only [List.mem_cons, not_or] at h
    simp only [splitOnChar]
    rw [if_neg (by intro hc; exact h.1 hc.symm), ih h.2]

theorem splitOnChar_append_cons {c : Char} {x : Str} (h : c ∉ x) (ys : Str) :
    splitOnChar c (x ++ c :: ys) = x :: splitOnChar c ys := by
  induction x with
  | nil => simp [splitOnChar]
  | cons a as ih =>
    simp only [List.mem_cons, not_or] at h
    simp only [List.cons_append, splitOnChar, List.append_eq]
    rw [if_neg (by intro hc; exact h.1 hc.symm), ih h.2]

theorem splitOnChar_joinChar_append {c : Char} {L : List Str}
    (hL : L ≠ []) (hnf : ∀ l ∈ L, c ∉ l) (t : Str) :
    splitOnChar c (joinChar c L ++ c :: t) = L ++ splitOnChar c t := by
  induction L with
  | nil => exact absurd rfl hL
  | cons x xs ih =>
    cases xs with
    | nil =>
      simp only [joinChar]
      rw [splitOnChar_append_cons (hnf x (by simp))]
      simp
    | cons y ys =>
      simp only [joinChar, List.append_assoc, List.cons_append]
      rw [splitOnChar_append_cons (hnf x (by simp))]
      rw [ih (by simp) (fun l hl => hnf l (List.mem_cons_of_mem x hl))]
      simp

theorem assocFind_assocSet_self {α : Type} (m : List (Str × α)) (k : Str) (v : α) :
    assocFind (assocSet m k v) k = some v := by
  induction m with
  | nil => simp [assocSet, assocFind]
  | cons p rest ih =>
    obtain ⟨a, w⟩ := p
    simp only [assocSet]
    by_cases h : a = k
    · simp [assocFind, h]
    · simp [assocFind, h, ih]

theorem assocFind_assocSet_ne {α : Type} (m : List (Str × α)) (k k' : Str) (v : α)
    (h : k' ≠ k) : assocFind (assocSet m k v) k' = assocFind m k' := by
  induction m with
  | nil =>
    simp only [assocSet, assocFind]
    rw [if_neg (fun hh => h hh.symm)]
  | cons p rest ih =>
    obtain ⟨a, w⟩ := p
    simp only [assocSet]
    by_cases ha : a = k
    · subst ha
      simp only [if_pos rfl, assocFind]
      rw [if_neg (fun hh => h hh.symm), if_neg (fun hh => h hh.symm)]
    · simp only [if_neg ha, assocFind]
      by_cases ha' : a = k'
      · simp [ha']
      · simp [ha', ih]

theorem splitAtChar_append {c : Char} {k : Str} (h : c ∉ k) (v : Str) :
    splitAtChar c (k ++ c :: v) = some (k, v) := by
  induction k with
  | nil => simp [splitAtChar]
  | cons a as ih =>
    simp only [List.mem_cons, not_or] at h
    simp only [List.cons_append, splitAtChar, List.append_eq]
    rw [if_neg (by intro hc; exact h.1 hc.symm), ih h.2]

theorem dropWhile_of_head_neg {p : Char → Bool} {s : Str}
    (h : ∀ c, s.head? = some c → p c = false) : s.dropWhile p = s := by
  cases s with
  | nil => rfl
  | cons a as => simp [List.dropWhile_cons, h a rfl]

theorem trimSp_space_cons {s : Str} (hh : s.head? ≠ some ' ')
    (hl : s.getLast? ≠ some ' ') : trimSp (' ' :: s) = s := by
  have h1 : (' ' :: s).dropWhile (· = ' ') = s.dropWhile (· = ' ') := by
    simp [List.dropWhile_cons]
  have h2 : s.dropWhile (· = ' ') = s := by
    apply dropWhile_of_head_neg
    intro c hc
    simp only [decide_eq_false_iff_not]
    intro he
    exact hh (by rw [hc, he])
  have h3 : s.reverse.dropWhile (· = ' ') = s.reverse := by
    apply dropWhile_of_head_neg
    intro c hc
    rw [List.head?_reverse] at hc
    simp only [decide_eq_false_iff_not]
    intro he
    exact hl (by rw [hc, he])
  simp [trimSp, h1, h2, h3]

theorem wfName_cases {k : Str} (h : wfName k = true) :
    ∃ c rest, k = c :: rest ∧ c ≠ ' ' ∧ c ≠ '#' ∧ c ≠ '-' ∧ (':' : Char) ∉ k := by
  cases k with
  | nil => simp [wfName] at h
  | cons c rest =>
    simp only [wfName, Bool.and_eq_true, Bool.not_eq_true', beq_eq_false_iff_ne,
      ne_eq, decide_eq_false_iff_not] at h
    obtain ⟨⟨⟨⟨⟨⟨h1, h2⟩, h3⟩, h4⟩, h5⟩, h6⟩, h7⟩ := h
    refine ⟨c, rest, rfl, h1, h2, h3, ?_⟩
    simp only [List.mem_cons, not_or]
    exact ⟨fun hc => h4 hc.symm, h6⟩

theorem wfScalar_props {s : Str} (h : wfScalar s = true) :
    s ≠ [] ∧ s.head? ≠ some ' ' ∧ s.getLast? ≠ some ' ' := by
  simp only [wfScalar, Bool.and_eq_true, Bool.not_eq_true', beq_eq_false_iff_ne,
    ne_eq, decide_eq_false_iff_not] at h
  exact ⟨h.1.1.1, h.1.2, h.2⟩

theorem renderHeader_cons (kv : Str × YVal) (fm : FM) :
    renderHeader (kv :: fm) = renderVal kv.1 kv.2 ++ renderHeader fm := by
  simp [renderHeader]

theorem key_line_facts {k : Str} (h : wfName k = true) (t : Str) :
    lineIsIndented (k ++ t) = false ∧ lineIsBlank (k ++ t) = false ∧
      lineIsComment (k ++ t) = false ∧ startsWithDashes (k ++ t) = false := by
  obtain ⟨c, rest, rfl, hsp, hhash, hdash, _⟩ := wfName_cases h
  have hdw : (c :: (rest ++ t)).dropWhile (· = ' ') = c :: (rest ++ t) := by
    apply dropWhile_of_head_neg
    intro x hx
    simp only [List.head?_cons, Option.some.injEq] at hx
    subst hx
    simp [hsp]
  refine ⟨?_, ?_, ?_, ?_⟩
  · simp [lineIsIndented, hsp]
  · simp [lineIsBlank, hsp]
  · simp [lineIsComment, List.cons_append, hdw, hhash]
  · simp [startsWithDashes, List.take_succ_cons, hdash]

theorem subEntryOf_subLineOf {a b : Str} (ha : wfName a = true) (hb : wfScalar b = true) :
    subEntryOf (subLineOf (a, b)) = some (a, b) := by
  obtain ⟨c, r, he, h1, h2, h3, hcol⟩ := wfName_cases ha
  obtain ⟨hbne, hbh, hbl⟩ := wfScalar_props hb
  simp only [subLineOf, subEntryOf, splitAtChar_append hcol]
  rw [trimSp_space_cons hbh hbl]

theorem parseHeaderGo_subs (k : Str) (kvs : List (Str × Str))
    (hkvs : ∀ kv ∈ kvs, wfName kv.1 = true ∧ wfScalar kv.2 = true)
    (pre : List (Str × Str)) (rest : List Str) :
    parseHeaderGo (some (k, pre)) ((kvs.map subLineOf) ++ rest)
      = parseHeaderGo (some (k, pre ++ kvs)) rest := by
  induction kvs generalizing pre with
  | nil => simp
  | cons kv kvs ih =>
    obtain ⟨a, b⟩ := kv
    obtain ⟨ha, hb⟩ := hkvs (a, b) (by simp)
    have hind : lineIsIndented (subLineOf (a, b)) = true := by
      simp [lineIsIndented, subLineOf]
    have hsub := subEntryOf_subLineOf ha hb
    have hstep : parseHeaderGo (some (k, pre)) (subLineOf (a, b) :: (kvs.map subLineOf ++ rest))
        = parseHeaderGo (some (k, pre ++ [(a, b)])) (kvs.map subLineOf ++ rest) := by
      simp [parseHeaderGo, hind, hsub]
    simp only [List.map_cons, List.cons_append, hstep]
    rw [ih (fun kv hkv => hkvs kv (by simp [hkv])) (pre ++ [(a, b)])]
    simp

theorem parseHeaderGo_some_eq (k : Str) (subs : List (Str × Str)) (ls : List Str)
    (h : ∀ l, ls.head? = some l → lineIsIndented l = false) :
    parseHeaderGo (some (k, subs)) ls = (k, .map subs) :: parseHeaderGo none ls := by
  cases ls with
  | nil => simp [parseHeaderGo, flushAcc]
  | cons l t =>
    have hInd : lineIsIndented l = false := h l rfl
    simp [parseHeaderGo, hInd, flushAcc]

theorem renderHeader_head_not_indented {fm : FM} (h : wfFM fm = true) :
    ∀ l, (renderHeader fm).head? = some l → lineIsIndented l = false := by
  intro l hl
  cases fm with
  | nil => simp [renderHeader] at hl
  | cons kv rest =>
    obtain ⟨k, v⟩ := kv
    simp only [wfFM, List.all_cons, Bool.and_eq_true] at h
    have hk : wfName k = true := h.1.1
    rw [renderHeader_cons] at hl
    cases v with
    | scalar s =>
      simp only [renderVal, List.cons_append, List.head?_cons, Option.some.injEq] at hl
      rw [← hl]
      exact (key_line_facts hk _).1
    | map kvs =>
      simp only [renderVal, List.cons_append, List.head?_cons, Option.some.injEq] at hl
      rw [← hl]
      exact (key_line_facts hk [':']).1

theorem parseHeader_renderHeader {fm : FM} (h : wfFM fm = true) :
    parseHeader (renderHeader fm) = fm := by
  show parseHeaderGo none (renderHeader fm) = fm
  induction fm with
  | nil => simp [renderHeader, parseHeaderGo, flushAcc]
  | cons kv rest ih =>
    obtain ⟨k, v⟩ := kv
    simp only [wfFM, List.all_cons, Bool.and_eq_true] at h
    obtain ⟨⟨hk, hv⟩, hrest⟩ := h
    have ihr := ih hrest
    obtain ⟨c, kr, hke, hsp, hhash, hdash, hcol⟩ := wfName_cases hk
    rw [renderHeader_cons]
    cases v with
    | scalar s =>
      obtain ⟨hsne, hsh, hsl⟩ := wfScalar_props hv
      have hfacts := key_line_facts hk (':' :: ' ' :: s)
      have hsplit : splitAtChar ':' (k ++ ':' :: ' ' :: s) = some (k, ' ' :: s) :=
        splitAtChar_append hcol _
      have htrim : trimSp (' ' :: s) = s := trimSp_space_cons hsh hsl
      simp only [renderVal, List.cons_append, List.nil_append, parseHeaderGo,
        hfacts.1, hfacts.2.1, hfacts.2.2.1, Bool.or_self, Bool.false_eq_true,
        if_false, hsplit, htrim, if_neg hsne, flushAcc]
      exact congrArg (List.cons (k, YVal.scalar s)) ihr
    | map kvs =>
      simp only [wfVal, Bool.and_eq_true, List.all_eq_true] at hv
      have hkvs : ∀ kv ∈ kvs, wfName kv.1 = true ∧ wfScalar kv.2 = true := by
        intro kv hkv
        have := hv.2 kv hkv
        exact ⟨by simpa using this.1, by simpa using this.2⟩
      have hfacts := key_line_facts hk [':']
      have hsplit : splitAtChar ':' (k ++ [':']) = some (k, []) := by
        simpa using splitAtChar_append hcol ([] : Str)
      have hrender : renderVal k (.map kvs) = (k ++ [':']) :: kvs.map subLineOf := by
        simp [renderVal, subLineOf]
      rw [hrender]
      simp only [List.cons_append, List.append_assoc]
      simp only [parseHeaderGo, hfacts.1, hfacts.2.1, hfacts.2.2.1, Bool.or_self,
        Bool.false_eq_true, if_false, hsplit, flushAcc, List.nil_append]
      rw [if_pos (show trimSp [] = [] from rfl)]
      rw [parseHeaderGo_subs k kvs hkvs [] (renderHeader rest)]
      simp only [List.nil_append]
      rw [parseHeaderGo_some_eq k kvs (renderHeader rest)
        (renderHeader_head_not_indented hrest)]
      exact congrArg (List.cons (k, YVal.map kvs)) ihr

theorem wfName_no_nl {k : Str} (h : wfName k = true) : ('\n' : Char) ∉ k := by
  cases k with
  | nil => simp
  | cons c rest =>
    simp only [wfName, Bool.and_eq_true, Bool.not_eq_true', beq_eq_false_iff_ne,
      ne_eq, decide_eq_false_iff_not] at h
    simp only [List.mem_cons, not_or]
    exact ⟨fun hc => h.1.1.2 hc.symm, h.2⟩

theorem wfScalar_no_nl {s : Str} (h : wfScalar s = true) : ('\n' : Char) ∉ s := by
  simp only [wfScalar, Bool.and_eq_true, Bool.not_eq_true', beq_eq_false_iff_ne,
    ne_eq, decide_eq_false_iff_not] at h
  exact h.1.1.2

theorem renderHeader_line_facts {fm : FM} (h : wfFM fm = true) :
    ∀ l ∈ renderHeader fm, startsWithDashes l = false ∧ ('\n' : Char) ∉ l := by
  induction fm with
  | nil => simp [renderHeader]
  | cons kv rest ih =>
    obtain ⟨k, v⟩ := kv
    simp only [wfFM, List.all_cons, Bool.and_eq_true] at h
    obtain ⟨⟨hk, hv⟩, hrest⟩ := h
    intro l hl
    rw [renderHeader_cons, List.mem_append] at hl
    rcases hl with hl | hl
    · cases v with
      | scalar s =>
        simp only [renderVal, List.mem_singleton] at hl
        subst hl
        refine ⟨(key_line_facts hk _).2.2.2, ?_⟩
        simp only [List.mem_append, List.mem_cons, not_or]
        exact ⟨wfName_no_nl hk, by decide, by decide,
          fun hm => wfScalar_no_nl hv hm⟩
      | map kvs =>
        simp only [wfVal, Bool.and_eq_true, List.all_eq_true] at hv
        simp only [renderVal, List.mem_cons] at hl
        rcases hl with hl | hl
        · subst hl
          refine ⟨(key_line_facts hk _).2.2.2, ?_⟩
          simp only [List.mem_append, List.mem_cons, not_or]
          exact ⟨wfName_no_nl hk, by decide, by simp⟩
        · simp only [List.mem_map] at hl
          obtain ⟨⟨a, b⟩, hab, rfl⟩ := hl
          have hwf := hv.2 (a, b) hab
          have ha : wfName a = true := by simpa using hwf.1
          have hb : wfScalar b = true := by simpa using hwf.2
          constructor
          · simp [startsWithDashes, List.take_succ_cons]
          · simp only [List.mem_cons, List.mem_append, not_or]
            exact ⟨by decide, by decide, wfName_no_nl ha, by decide, by decide,
              fun hm => wfScalar_no_nl hb hm⟩
    · exact ih hrest l hl

theorem splitAtClose_append {hdr : List Str}
    (h : ∀ l ∈ hdr, startsWithDashes l = false) {d : Str}
    (hd : startsWithDashes d = true) (after : List Str) :
    splitAtClose (hdr ++ d :: after) = some (hdr, d, after) := by
  induction hdr with
  | nil => simp [splitAtClose, hd]
  | cons l ls ih =>
    have hl : startsWithDashes l = false := h l (by simp)
    simp only [List.cons_append, splitAtClose, hl, Bool.false_eq_true, if_false,
      List.append_eq]
    rw [ih (fun x hx => h x (by simp [hx]))]

/-- Canonical inverse: parsing a stringified document recovers the data
record and the newline-ensured content. -/
theorem matterParse_matterStringify (c : Str) (fm : FM)
    (hfm : wfFM fm = true) (hne : fm ≠ []) :
    matterParse (matterStringify c fm) = ⟨fm, ensureNL c⟩ := by
  have hlines := renderHeader_line_facts hfm
  have hnf : ∀ l ∈ dashesLine :: renderHeader fm ++ [dashesLine], ('\n' : Char) ∉ l := by
    intro l hl
    rcases List.mem_cons.mp hl with rfl | hmem
    · decide
    · rcases List.mem_append.mp hmem with h1 | h2
      · exact (hlines l h1).2
      · rw [List.mem_singleton] at h2
        subst h2
        decide
  have hsplit : splitLines (matterStringify c fm) =
      dashesLine :: (renderHeader fm ++ [dashesLine]) ++ splitLines (ensureNL c) := by
    simp only [matterStringify, if_neg hne, splitLines, joinLines]
    rw [splitOnChar_joinChar_append (by simp) hnf (ensureNL c)]
    simp
  have hclose : splitAtClose ((renderHeader fm ++ [dashesLine]) ++ splitLines (ensureNL c))
      = some (renderHeader fm, dashesLine, splitLines (ensureNL c)) := by
    rw [List.append_assoc, List.singleton_append]
    exact splitAtClose_append (fun l hl => (hlines l hl).1) (by decide) _
  simp only [matterParse, hsplit]
  rw [show (dashesLine :: (renderHeader fm ++ [dashesLine]) ++ splitLines (ensureNL c)).headD []
      = dashesLine from rfl]
  rw [if_pos rfl]
  rw [show (dashesLine :: (renderHeader fm ++ [dashesLine]) ++ splitLines (ensureNL c)).tail
      = (renderHeader fm ++ [dashesLine]) ++ splitLines (ensureNL c) from rfl]
  rw [hclose]
  simp only [afterOpen]
  have hdrop : dashesLine.drop 3 = ([] : Str) := by decide
  rw [hdrop]
  have hjoin : joinLines (([] : Str) :: splitLines (ensureNL c)) = '\n' :: ensureNL c := by
    cases hsl : splitLines (ensureNL c) with
    | nil => exact absurd hsl (splitOnChar_ne_nil '\n' (ensureNL c))
    | cons x xs =>
      show joinChar '\n' ([] :: x :: xs) = '\n' :: ensureNL c
      rw [show joinChar '\n' ([] :: x :: xs) = [] ++ '\n' :: joinChar '\n' (x :: xs) from rfl]
      rw [← hsl]
      rw [show joinChar '\n' (splitLines (ensureNL c)) = joinLines (splitLines (ensureNL c)) from rfl]
      rw [show joinLines (splitLines (ensureNL c)) = ensureNL c from joinChar_splitOnChar '\n' _]
      rfl
  rw [hjoin]
  have hstrip : stripLead ('\n' :: ensureNL c) = ensureNL c := by
    simp [stripLead]
  rw [hstrip, parseHeader_renderHeader hfm]

theorem assocSet_ne_nil {α : Type} (m : List (Str × α)) (k : Str) (v : α) :
    assocSet m k v ≠ [] := by
  cases m with
  | nil => simp [assocSet]
  | cons p rest =>
    obtain ⟨a, w⟩ := p
    simp only [assocSet]
    split <;> simp

theorem assocFind_mem {α : Type} {m : List (Str × α)} {k : Str} {v : α}
    (h : assocFind m k = some v) : (k, v) ∈ m := by
  induction m with
  | nil => simp [assocFind] at h
  | cons p rest ih =>
    obtain ⟨a, w⟩ := p
    simp only [assocFind] at h
    by_cases ha : a = k
    · rw [if_pos ha] at h
      subst ha
      simp only [Option.some.injEq] at h
      subst h
      simp
    · rw [if_neg ha] at h
      exact List.mem_cons_of_mem _ (ih h)

theorem all_assocSet {α : Type} (p : Str × α → Bool) {m : List (Str × α)}
    (hm : m.all p = true) {k : Str} {v : α} (hkv : p (k, v) = true) :
    (assocSet m k v).all p = true := by
  induction m with
  | nil => simp [assocSet, hkv]
  | cons q rest ih =>
    obtain ⟨a, w⟩ := q
    simp only [List.all_cons, Bool.and_eq_true] at hm
    simp only [assocSet]
    split
    · rename_i ha
      subst ha
      simp only [List.all_cons, Bool.and_eq_true]
      exact ⟨hkv, hm.2⟩
    · simp only [List.all_cons, Bool.and_eq_true]
      exact ⟨hm.1, ih hm.2⟩

/-- All entries of the alternates record of a well-formed document are
well-formed. -/
theorem altRecordOf_wf {data : FM} (hd : wfFM data = true) :
    (altRecordOf data).all (fun kv => wfName kv.1 && wfScalar kv.2) = true := by
  unfold altRecordOf
  cases hfind : assocFind data altKey with
  | none => simp
  | some v =>
    cases v with
    | scalar s => simp
    | map m =>
      have hmem := assocFind_mem hfind
      simp only [wfFM, List.all_eq_true] at hd
      have := hd (altKey, YVal.map m) hmem
      simp only [Bool.and_eq_true, wfVal, List.all_eq_true] at this
      simp only [List.all_eq_true, Bool.and_eq_true]
      exact this.2.2

theorem ensureNL_idem (s : Str) : ensureNL (ensureNL s) = ensureNL s := by
  unfold ensureNL
  split
  · rename_i h
    simp [h]
  · rename_i h
    rw [if_pos (by simp [List.getLast?_concat])]

theorem matterStringify_ensureNL (c : Str) (fm : FM) :
    matterStringify (ensureNL c) fm = matterStringify c fm := by
  unfold matterStringify
  rw [ensureNL_idem]

/-!
## Claim C1: round-trip identity of the header engine
-/

/-- C1 counterexample: the claim states that rewriting the parsed line
sequence of a header with an empty replacement set reproduces the header
byte-for-byte, including surrounding comments.  In the code the only
header engine is gray-matter's parse/stringify pair, and re-serializing a
document whose header contains a comment line drops the comment: the
round trip is not byte-identical. -/
theorem c1_roundtrip_counterexample :
    reserializeDoc ("---\n# note\ntitle: A\n---\nbody\n".data)
      ≠ ("---\n# note\ntitle: A\n---\nbody\n".data) := by decide

/-- C1 (amended): the round trip reproduces a header byte-for-byte only
when the document is already in the canonical rendered form (a stringify
of a well-formed nonempty record): re-serializing such a document with an
empty replacement set is the identity.  Headers containing comments,
blank lines or non-canonical formatting are canonicalized instead of
being preserved. -/
theorem c1_canonical_roundtrip (c : Str) (fm : FM)
    (hfm : wfFM fm = true) (hne : fm ≠ []) :
    reserializeDoc (matterStringify c fm) = matterStringify c fm := by
  unfold reserializeDoc
  rw [matterParse_matterStringify c fm hfm hne]
  exact matterStringify_ensureNL c fm

theorem c1_canonical_roundtrip_witness :
    wfFM [(("title".data), YVal.scalar ("A".data))] = true ∧
    reserializeDoc (matterStringify ("body\n".data) [(("title".data), YVal.scalar ("A".data))])
      = matterStringify ("body\n".data) [(("title".data), YVal.scalar ("A".data))] :=
  ⟨by decide, c1_canonical_roundtrip ("body\n".data) _ (by decide) (by decide)⟩

/-!
## Claim C2: opt-in gating of synchronization
-/

/-- C2 counterexample: the claim states that a document whose header does
not contain the alternates field is never written by the alternate-link
synchronization.  `updateFileAlternates` does the opposite: on a document
without the field it creates the field and rewrites the file (returns
modified = true with changed text). -/
theorem c2_optin_counterexample :
    assocFind (matterParse ("---\ntitle: A\n---\nbody\n".data)).data altKey = none ∧
    (updateFileAlternates ("---\ntitle: A\n---\nbody\n".data) ("ru".data) ("x".data)).1 = true ∧
    (updateFileAlternates ("---\ntitle: A\n---\nbody\n".data) ("ru".data) ("x".data)).2
      ≠ ("---\ntitle: A\n---\nbody\n".data) := by decide

/-- C2 (amended): synchronization is not opt-in on the write side: for
every document whose header lacks the alternates field,
`updateFileAlternates` reports a modification and rewrites the document
with a freshly created alternates field holding the single new entry.
The update is skipped only when the entry is already present with the
same value (or the file does not exist). -/
theorem c2_creates_alternates (raw loc p : Str)
    (habs : assocFind (matterParse raw).data altKey = none) :
    updateFileAlternates raw loc p
      = (true, matterStringify (matterParse raw).content
          (assocSet (matterParse raw).data altKey (.map [(loc, p)]))) := by
  have hrec0 : altRecordOf (matterParse raw).data = [] := by
    unfold altRecordOf
    rw [habs]
  unfold updateFileAlternates
  rw [hrec0]
  rw [if_neg (by simp [assocFind])]
  simp [assocSet]

theorem c2_creates_alternates_witness :
    assocFind (matterParse ("---\ntitle: A\n---\nbody\n".data)).data altKey = none ∧
    updateFileAlternates ("---\ntitle: A\n---\nbody\n".data) ("ru".data) ("x".data)
      = (true, matterStringify (matterParse ("---\ntitle: A\n---\nbody\n".data)).content
          (assocSet (matterParse ("---\ntitle: A\n---\nbody\n".data)).data altKey
            (.map [(("ru".data), ("x".data))]))) :=
  ⟨by decide, c2_creates_alternates _ _ _ (by decide)⟩

/-!
## Claim C3: first-seen-wins merge
-/

/-- C3 counterexample: the claim states that an alternates entry already
present for a locale is never overwritten by a later conflicting value.
The update in `updateFileAlternates` is last-write-wins: updating locale
ru (existing value x) with permalink y overwrites the entry to y. -/
theorem c3_firstseen_counterexample :
    assocFind (altRecordOf
        (matterParse ("---\nalternates:\n  ru: x\n---\nb\n".data)).data) ("ru".data)
      = some ("x".data) ∧
    (updateFileAlternates ("---\nalternates:\n  ru: x\n---\nb\n".data) ("ru".data) ("y".data)).1
      = true ∧
    assocFind (altRecordOf (matterParse
        (updateFileAlternates ("---\nalternates:\n  ru: x\n---\nb\n".data)
          ("ru".data) ("y".data)).2).data) ("ru".data)
      = some ("y".data) := by decide

/-- C3 (amended): the alternates update is last-write-wins, not
first-seen-wins: when the stored entry for the locale differs from the
new permalink, `updateFileAlternates` reports a modification and the
rewritten document's alternates record holds the new permalink for that
locale (the conflicting first-seen value is overwritten); entries for all
other locales are unchanged. -/
theorem c3_lastwrite_wins (raw loc p q : Str)
    (hd : wfFM (matterParse raw).data = true)
    (hl : wfName loc = true) (hp : wfScalar p = true)
    (hfound : assocFind (altRecordOf (matterParse raw).data) loc = some q)
    (hne : q ≠ p) :
    (updateFileAlternates raw loc p).1 = true ∧
    assocFind (altRecordOf (matterParse (updateFileAlternates raw loc p).2).data) loc
      = some p ∧
    ∀ k, k ≠ loc →
      assocFind (altRecordOf (matterParse (updateFileAlternates raw loc p).2).data) k
        = assocFind (altRecordOf (matterParse raw).data) k := by
  have hcase : assocFind (altRecordOf (matterParse raw).data) loc ≠ some p := by
    rw [hfound]
    simp [hne]
  have h1 : updateFileAlternates raw loc p
      = (true, matterStringify (matterParse raw).content
          (assocSet (matterParse raw).data altKey
            (.map (assocSet (altRecordOf (matterParse raw).data) loc p)))) := by
    unfold updateFileAlternates
    rw [if_neg hcase]
  have hvwf : wfVal (.map (assocSet (altRecordOf (matterParse raw).data) loc p)) = true := by
    simp only [wfVal, Bool.and_eq_true]
    refine ⟨?_, all_assocSet _ (altRecordOf_wf hd) (by simp [hl, hp])⟩
    simp [assocSet_ne_nil]
  have hd2 : wfFM (assocSet (matterParse raw).data altKey
      (.map (assocSet (altRecordOf (matterParse raw).data) loc p))) = true :=
    all_assocSet _ hd (by simp only [Bool.and_eq_true]; exact ⟨by decide, hvwf⟩)
  have hparse := matterParse_matterStringify (matterParse raw).content _ hd2
    (assocSet_ne_nil _ _ _)
  have hrec : altRecordOf (matterParse (updateFileAlternates raw loc p).2).data
      = assocSet (altRecordOf (matterParse raw).data) loc p := by
    rw [h1]
    show altRecordOf (matterParse (matterStringify (matterParse raw).content
        (assocSet (matterParse raw).data altKey
          (.map (assocSet (altRecordOf (matterParse raw).data) loc p))))).data = _
    rw [hparse]
    unfold altRecordOf
    rw [assocFind_assocSet_self]
  refine ⟨by rw [h1], ?_, ?_⟩
  · rw [hrec]
    exact assocFind_assocSet_self _ _ _
  · intro k hk
    rw [hrec]
    exact assocFind_assocSet_ne _ _ _ _ hk

theorem c3_lastwrite_wins_witness :
    (wfFM (matterParse ("---\nalternates:\n  ru: x\n---\nb\n".data)).data = true ∧
      wfName ("ru".data) = true ∧ wfScalar ("y".data) = true ∧
      assocFind (altRecordOf
        (matterParse ("---\nalternates:\n  ru: x\n---\nb\n".data)).data) ("ru".data)
        = some ("x".data) ∧ ("x".data) ≠ ("y".data)) ∧
    ((updateFileAlternates ("---\nalternates:\n  ru: x\n---\nb\n".data)
        ("ru".data) ("y".data)).1 = true ∧
      assocFind (altRecordOf (matterParse
        (updateFileAlternates ("---\nalternates:\n  ru: x\n---\nb\n".data)
          ("ru".data) ("y".data)).2).data) ("ru".data) = some ("y".data) ∧
      ∀ k, k ≠ ("ru".data) →
        assocFind (altRecordOf (matterParse
          (updateFileAlternates ("---\nalternates:\n  ru: x\n---\nb\n".data)
            ("ru".data) ("y".data)).2).data) k
          = assocFind (altRecordOf
              (matterParse ("---\nalternates:\n  ru: x\n---\nb\n".data)).data) k) :=
  ⟨⟨by decide, by decide, by decide, by decide, by decide⟩,
    c3_lastwrite_wins ("---\nalternates:\n  ru: x\n---\nb\n".data) ("ru".data) ("y".data)
      ("x".data) (by decide) (by decide) (by decide) (by decide) (by decide)⟩

/-!
## Claim C5: structural-absence no-op
-/

/-- C5 counterexample: the claim states that on a document without the
header delimiter pair the patcher returns noop and the text stays
unchanged.  `updateFileAlternates` on such a document instead reports a
modification and rewrites the document with a newly created header. -/
theorem c5_noop_counterexample :
    (updateFileAlternates ("hello".data) ("ru".data) ("x".data)).1 = true ∧
    (updateFileAlternates ("hello".data) ("ru".data) ("x".data)).2 ≠ ("hello".data) := by decide

/-- C5 (amended): on a document whose first line does not start with the
header delimiter, the patcher does not no-op: it reports a modification
and produces the document re-serialized with a freshly created header
containing only the alternates field with the new entry, the original
text becoming the body.  A no-op happens only when the file is missing or
the entry already has the given value. -/
theorem c5_headerless_creates (raw loc p : Str)
    (h : startsWithDashes ((splitLines raw).headD []) = false) :
    updateFileAlternates raw loc p
      = (true, matterStringify raw [(altKey, .map [(loc, p)])]) := by
  have hno : matterParse raw = ⟨[], raw⟩ := by
    unfold matterParse
    rw [if_neg (fun he => by rw [he] at h; exact absurd h (by decide))]
  have hrec0 : altRecordOf (matterParse raw).data = [] := by
    unfold altRecordOf
    rw [hno]
    simp [assocFind]
  unfold updateFileAlternates
  rw [hrec0, hno]
  rw [if_neg (by simp [assocFind])]
  simp [assocSet]

theorem c5_headerless_creates_witness :
    startsWithDashes ((splitLines ("hello".data)).headD []) = false ∧
    updateFileAlternates ("hello".data) ("ru".data) ("x".data)
      = (true, matterStringify ("hello".data) [(altKey, .map [(("ru".data), ("x".data))])]) :=
  ⟨by decide, c5_headerless_creates _ _ _ (by decide)⟩

/-!
## Claim C6: patch idempotence
-/

/-- C6: patching is idempotent: applying `updateFileAlternates` a second
time with the same locale and permalink returns the first result's text
unchanged and reports no modification (the entry is already structurally
present), under the canonical-renderer side conditions the spec itself
assumes (well-formed parsed record, well-formed locale key and permalink
value). -/
theorem c6_patch_idempotent (raw loc p : Str)
    (hd : wfFM (matterParse raw).data = true)
    (hl : wfName loc = true) (hp : wfScalar p = true) :
    updateFileAlternates (updateFileAlternates raw loc p).2 loc p
      = (false, (updateFileAlternates raw loc p).2) := by
  by_cases hcase : assocFind (altRecordOf (matterParse raw).data) loc = some p
  · have h1 : updateFileAlternates raw loc p = (false, raw) := by
      unfold updateFileAlternates
      rw [if_pos hcase]
    rw [h1]
    simpa using h1
  · have h1 : updateFileAlternates raw loc p
        = (true, matterStringify (matterParse raw).content
            (assocSet (matterParse raw).data altKey
              (.map (assocSet (altRecordOf (matterParse raw).data) loc p)))) := by
      unfold updateFileAlternates
      rw [if_neg hcase]
    have hvwf : wfVal (.map (assocSet (altRecordOf (matterParse raw).data) loc p)) = true := by
      simp only [wfVal, Bool.and_eq_true]
      refine ⟨?_, all_assocSet _ (altRecordOf_wf hd) (by simp [hl, hp])⟩
      simp [assocSet_ne_nil]
    have hd2 : wfFM (assocSet (matterParse raw).data altKey
        (.map (assocSet (altRecordOf (matterParse raw).data) loc p))) = true :=
      all_assocSet _ hd (by simp only [Bool.and_eq_true]; exact ⟨by decide, hvwf⟩)
    have hparse := matterParse_matterStringify (matterParse raw).content _ hd2
      (assocSet_ne_nil _ _ _)
    rw [h1]
    have hrec : altRecordOf (assocSet (matterParse raw).data altKey
        (.map (assocSet (altRecordOf (matterParse raw).data) loc p)))
        = assocSet (altRecordOf (matterParse raw).data) loc p := by
      unfold altRecordOf
      rw [assocFind_assocSet_self]
    show updateFileAlternates (matterStringify (matterParse raw).content
        (assocSet (matterParse raw).data altKey
          (.map (assocSet (altRecordOf (matterParse raw).data) loc p)))) loc p = _
    unfold updateFileAlternates
    rw [hparse]
    simp only [hrec]
    rw [if_pos (assocFind_assocSet_self _ _ _)]

theorem c6_patch_idempotent_witness :
    (wfFM (matterParse ("---\ntitle: A\n---\nbody\n".data)).data = true ∧
      wfName ("ru".data) = true ∧ wfScalar ("o-nas".data) = true) ∧
    updateFileAlternates
        (updateFileAlternates ("---\ntitle: A\n---\nbody\n".data) ("ru".data) ("o-nas".data)).2
        ("ru".data) ("o-nas".data)
      = (false, (updateFileAlternates ("---\ntitle: A\n---\nbody\n".data)
          ("ru".data) ("o-nas".data)).2) :=
  ⟨⟨by decide, by decide, by decide⟩,
    c6_patch_idempotent _ _ _ (by decide) (by decide) (by decide)⟩

theorem leadsWith_ex {pre s : Str} (h : leadsWith pre s = true) :
    ∃ t, s = pre ++ t := by
  induction pre generalizing s with
  | nil => exact ⟨s, rfl⟩
  | cons a ps ih =>
    cases s with
    | nil => simp [leadsWith] at h
    | cons b ss =>
      simp only [leadsWith, Bool.and_eq_true, beq_iff_eq] at h
      obtain ⟨t, ht⟩ := ih h.2
      exact ⟨t, by rw [List.cons_append, ht, h.1]⟩

/-!
## Claim C9: resolver round trip
-/

/-- C9: for every configuration and relative path, resolving the locale,
stripping it and re-prefixing the same locale yields the original path,
provided that when the resolved locale is non-default the path actually
starts with that locale segment followed by a slash. -/
theorem c9_resolver_roundtrip (config : ResolvedConfig) (p : Str)
    (h : getLocaleFromPath p config ≠ config.defaultLocale →
      leadsWith (getLocaleFromPath p config ++ ['/']) p = true) :
    getTargetPath p (getLocaleFromPath p config) (getLocaleFromPath p config) config = p := by
  by_cases hd : getLocaleFromPath p config = config.defaultLocale
  · unfold getTargetPath getBasePath
    rw [if_pos hd, if_pos hd]
  · have hpre := h hd
    unfold getTargetPath getBasePath
    rw [if_neg hd, if_neg hd, if_pos hpre]
    set l := getLocaleFromPath p config with hl
    obtain ⟨t, ht⟩ := leadsWith_ex hpre
    rw [ht]
    have hlen : l.length + 1 = (l ++ ['/']).length := by simp
    rw [hlen, List.drop_left]
    simp

theorem c9_resolver_roundtrip_witness :
    (getLocaleFromPath ("ru/about.md".data)
        ⟨("gpt-4.1".data), ("src/content/pages".data), ("/".data),
          [("en".data), ("ru".data)], ("en".data), true⟩
      ≠ ("en".data) →
      leadsWith (getLocaleFromPath ("ru/about.md".data)
          ⟨("gpt-4.1".data), ("src/content/pages".data), ("/".data),
            [("en".data), ("ru".data)], ("en".data), true⟩ ++ ['/']) ("ru/about.md".data) = true) ∧
    getTargetPath ("ru/about.md".data)
        (getLocaleFromPath ("ru/about.md".data)
          ⟨("gpt-4.1".data), ("src/content/pages".data), ("/".data),
            [("en".data), ("ru".data)], ("en".data), true⟩)
        (getLocaleFromPath ("ru/about.md".data)
          ⟨("gpt-4.1".data), ("src/content/pages".data), ("/".data),
            [("en".data), ("ru".data)], ("en".data), true⟩)
        ⟨("gpt-4.1".data), ("src/content/pages".data), ("/".data),
          [("en".data), ("ru".data)], ("en".data), true⟩
      = ("ru/about.md".data) :=
  ⟨fun _ => by decide, c9_resolver_roundtrip _ _ (fun _ => by decide)⟩

/-- C7 counterexample: the claim states that an explicit locale list
yields exactly those locales, but the code filters the document's own
locale out of the list: the list containing only the source locale yields
the empty target set, not that locale. -/
theorem c7_marker_counterexample :
    parseTranslateTo (TransVal.arr [("en".data)]) ("en".data)
        ⟨("gpt-4.1".data), ("src/content/pages".data), ("/".data),
          [("en".data), ("ru".data)], ("en".data), true⟩
      = some [] ∧
    parseTranslateTo (TransVal.arr [("en".data)]) ("en".data)
        ⟨("gpt-4.1".data), ("src/content/pages".data), ("/".data),
          [("en".data), ("ru".data)], ("en".data), true⟩
      ≠ some [("en".data)] := by decide

/-- C7 (amended): the opt-in marker maps to target locales as follows -
absent, explicit false and any other non-list non-string value yield
do-not-translate; an explicit locale list yields those locales with the
document's own locale filtered out; the wildcard token yields all
configured locales except the document's own; any other single string
yields that locale unless it is the document's own (then the empty set). -/
theorem c7_marker_semantics (config : ResolvedConfig) (src : Str) :
    parseTranslateTo .undef src config = none ∧
    parseTranslateTo .boolFalse src config = none ∧
    parseTranslateTo .other src config = none ∧
    (∀ ls, ∃ r, parseTranslateTo (.arr ls) src config = some r ∧
      ∀ l, l ∈ r ↔ (l ∈ ls ∧ l ≠ src)) ∧
    (∃ r, parseTranslateTo (.str ("all".data)) src config = some r ∧
      ∀ l, l ∈ r ↔ (l ∈ config.locales ∧ l ≠ src)) ∧
    (∀ s, s ≠ ("all".data) →
      parseTranslateTo (.str s) src config = some (if s = src then [] else [s])) := by
  refine ⟨rfl, rfl, rfl, ?_, ?_, ?_⟩
  · intro ls
    refine ⟨ls.filter (fun l => l != src), rfl, ?_⟩
    intro l
    simp [List.mem_filter]
  · refine ⟨config.locales.filter (fun l => l != src), by simp [parseTranslateTo], ?_⟩
    intro l
    simp [List.mem_filter]
  · intro s hs
    simp only [parseTranslateTo, if_neg hs]
    by_cases hsrc : s = src
    · subst hsrc
      simp
    · have hb : (s != src) = true := by
        simp only [bne_iff_ne, ne_eq]
        exact hsrc
      simp [List.filter, hb, if_neg hsrc]

theorem c7_marker_semantics_witness :
    parseTranslateTo .undef ("en".data)
        ⟨("gpt-4.1".data), ("src/content/pages".data), ("/".data),
          [("en".data), ("ru".data)], ("en".data), true⟩ = none ∧
    parseTranslateTo .boolFalse ("en".data)
        ⟨("gpt-4.1".data), ("src/content/pages".data), ("/".data),
          [("en".data), ("ru".data)], ("en".data), true⟩ = none ∧
    parseTranslateTo .other ("en".data)
        ⟨("gpt-4.1".data), ("src/content/pages".data), ("/".data),
          [("en".data), ("ru".data)], ("en".data), true⟩ = none ∧
    (∀ ls, ∃ r, parseTranslateTo (.arr ls) ("en".data)
        ⟨("gpt-4.1".data), ("src/content/pages".data), ("/".data),
          [("en".data), ("ru".data)], ("en".data), true⟩ = some r ∧
      ∀ l, l ∈ r ↔ (l ∈ ls ∧ l ≠ ("en".data))) ∧
    (∃ r, parseTranslateTo (.str ("all".data)) ("en".data)
        ⟨("gpt-4.1".data), ("src/content/pages".data), ("/".data),
          [("en".data), ("ru".data)], ("en".data), true⟩ = some r ∧
      ∀ l, l ∈ r ↔ (l ∈ [("en".data), ("ru".data)] ∧ l ≠ ("en".data))) ∧
    (∀ s, s ≠ ("all".data) →
      parseTranslateTo (.str s) ("en".data)
          ⟨("gpt-4.1".data), ("src/content/pages".data), ("/".data),
            [("en".data), ("ru".data)], ("en".data), true⟩
        = some (if s = ("en".data) then [] else [s])) :=
  c7_marker_semantics
    ⟨("gpt-4.1".data), ("src/content/pages".data), ("/".data),
      [("en".data), ("ru".data)], ("en".data), true⟩ ("en".data)

theorem assocFind_none_of_not_key {α : Type} {m : List (Str × α)} {k : Str}
    (h : k ∉ m.map Prod.fst) : assocFind m k = none := by
  induction m with
  | nil => rfl
  | cons p rest ih =>
    obtain ⟨a, w⟩ := p
    simp only [List.map_cons, List.mem_cons, not_or] at h
    simp only [assocFind]
    rw [if_neg (fun he => h.1 he.symm)]
    exact ih h.2

theorem assocFind_filter_none {α : Type} (p : Str × α → Bool) {m : List (Str × α)}
    (hnd : (m.map Prod.fst).Nodup) {k : Str} {v : α}
    (hfind : assocFind m k = some v) (hp : p (k, v) = false) :
    assocFind (m.filter p) k = none := by
  induction m with
  | nil => simp [assocFind] at hfind
  | cons q rest ih =>
    obtain ⟨a, w⟩ := q
    simp only [List.map_cons, List.nodup_cons] at hnd
    simp only [assocFind] at hfind
    by_cases ha : a = k
    · subst ha
      rw [if_pos rfl] at hfind
      injection hfind with hv
      subst hv
      rw [List.filter_cons, if_neg (by simp [hp])]
      apply assocFind_none_of_not_key
      intro hmem
      apply hnd.1
      obtain ⟨⟨b, u⟩, hbu, hba⟩ := List.mem_map.mp hmem
      exact List.mem_map.mpr ⟨(b, u), (List.mem_filter.mp hbu).1, hba⟩
    · rw [if_neg ha] at hfind
      rw [List.filter_cons]
      split
      · simp only [assocFind]
        rw [if_neg ha]
        exact ih hnd.2 hfind
      · exact ih hnd.2 hfind

/-!
## Claim C4: external-URL carry-through
-/

/-- C4 counterexample: the claim states that alternates entries whose
value is an absolute external URL are carried through into the rebuilt
(merged) map unchanged and never dropped.  The rebuild in `translate`
copies only entries whose value does not start with http: the external
entry for locale de is dropped from the resulting map. -/
theorem c4_carry_through_counterexample :
    assocFind [(("de".data), ("https://example.com/x".data))] ("de".data)
      = some ("https://example.com/x".data) ∧
    assocFind (buildNewAlternates (some [(("de".data), ("https://example.com/x".data))])
      ("en".data) ("about".data) ("ru".data) ("o-nas".data)) ("de".data) = none := by decide

/-- C4 (amended): external-URL alternates entries are never resolved
against the filesystem (the permalink-existence check rejects them
outright, independent of any lookup oracle) and are never used as the
translated file's permalink, but they are not carried through into the
rebuilt alternates map: the rebuild drops every entry whose value starts
with http (unless its locale is re-inserted as the source or target
locale with a new, non-URL value). -/
theorem c4_external_url_semantics :
    (∀ (m : List (Str × Str)) (sL sP t tP k v : Str),
      (m.map Prod.fst).Nodup → assocFind m k = some v → startsWithHttp v = true →
      k ≠ sL → k ≠ t →
      assocFind (buildNewAlternates (some m) sL sP t tP) k = none) ∧
    (∀ (s : SourceFile) (t v : Str),
      altTruthy (fmAlternates s.frontmatter) t = some v → startsWithHttp v = true →
      targetPermalinkOf s t = getPermalink s) ∧
    (∀ (pe : Str → Str → Bool) (s : SourceFile) (t v : Str),
      altTruthy (fmAlternates s.frontmatter) t = some v → startsWithHttp v = true →
      permalinkHit pe s t = false) := by
  refine ⟨?_, ?_, ?_⟩
  · intro m sL sP t tP k v hnd hfind hhttp hksl hkt
    have hn1 : assocFind (m.filter (fun kv => !(startsWithHttp kv.2))) k = none :=
      assocFind_filter_none _ hnd hfind (by simp [hhttp])
    simp only [buildNewAlternates, Option.getD_some]
    rw [assocFind_assocSet_ne _ _ _ _ hkt]
    by_cases hb : strFalsy (assocFind (m.filter (fun kv => !(startsWithHttp kv.2))) sL) = true
    · rw [if_pos hb, assocFind_assocSet_ne _ _ _ _ hksl, hn1]
    · rw [if_neg hb, hn1]
  · intro s t v hfind hhttp
    unfold targetPermalinkOf
    rw [hfind]
    simp [altNonUrl, hhttp]
  · intro pe s t v hfind hhttp
    unfold permalinkHit
    rw [hfind]
    simp [permalinkTest, hhttp]

theorem c4_external_url_semantics_witness :
    assocFind (buildNewAlternates (some [(("de".data), ("https://example.com/x".data))])
      ("en".data) ("about".data) ("ru".data) ("o-nas".data)) ("de".data) = none :=
  c4_external_url_semantics.1 [(("de".data), ("https://example.com/x".data))]
    ("en".data) ("about".data) ("ru".data) ("o-nas".data) ("de".data) ("https://example.com/x".data)
    (by decide) (by decide) (by decide) (by decide) (by decide)

theorem enumFrom_idx_own {α : Type} (l : List α) (n i : Nat) :
    (List.enumFrom n l).get? i = (l.get? i).map (fun a => (n + i, a)) := by
  induction l generalizing n i with
  | nil => simp [List.enumFrom]
  | cons a as ih =>
    cases i with
    | zero => simp [List.enumFrom]
    | succ j =>
      simp only [List.enumFrom, List.get?_cons_succ]
      rw [ih (n + 1) j]
      have : n + 1 + j = n + (j + 1) := by omega
      rw [this]

theorem enum_map_idx {α β : Type} (f : Nat × α → β) (l : List α) (i : Nat) :
    ((l.enum.map f).get? i) = (l.get? i).map (fun a => f (i, a)) := by
  rw [List.get?_map, List.enum, enumFrom_idx_own]
  cases l.get? i <;> simp

/-!
## Claim C8: failure isolation
-/

/-- C8: the only condition fatal to a `translate` run is a missing API
key outside dry-run mode (first two conjuncts); in every non-fatal run
the execution loop produces one result per unit of work (third conjunct),
a unit whose translation call fails contributes a typed error result for
exactly that unit carrying the failure message (fourth conjunct), and the
result of every unit depends only on its own translation outcome, so one
unit's failure cannot abort or alter the remaining units (fifth
conjunct). -/
theorem c8_failure_isolation (config : ResolvedConfig) (options : TranslateOptions)
    (apiKey : Option Str) (sources : List SourceFile)
    (fsExists : Str → Bool) (pe : Str → Str → Bool)
    (oracle oracle2 : Nat → Except Str TPayload) (today : Str) :
    (apiKey = none ∧ options.dryRun = false →
      translateRun config options apiKey sources fsExists pe oracle today
        = .error apiKeyErrorMsg) ∧
    ((apiKey.isSome ∨ options.dryRun = true) →
      ∃ rs ws, translateRun config options apiKey sources fsExists pe oracle today
        = .ok (rs, ws)) ∧
    (((planWork (planSteps config options fsExists pe sources)).enum.map
        (fun iw => (execUnit config today (oracle iw.1) iw.2).1)).length
      = (planWork (planSteps config options fsExists pe sources)).length) ∧
    (∀ i w m, (planWork (planSteps config options fsExists pe sources)).get? i = some w →
      oracle i = .error m →
      ((planWork (planSteps config options fsExists pe sources)).enum.map
        (fun iw => (execUnit config today (oracle iw.1) iw.2).1)).get? i
        = some ⟨w.source.relativePath, w.targetRelPath, w.targetLocale,
            .error, some m, []⟩) ∧
    (∀ j, oracle j = oracle2 j →
      ((planWork (planSteps config options fsExists pe sources)).enum.map
        (fun iw => (execUnit config today (oracle iw.1) iw.2).1)).get? j
        = ((planWork (planSteps config options fsExists pe sources)).enum.map
          (fun iw => (execUnit config today (oracle2 iw.1) iw.2).1)).get? j) := by
  refine ⟨?_, ?_, ?_, ?_, ?_⟩
  · intro h
    unfold translateRun
    rw [if_pos (by simp [h.1, h.2])]
  · intro h
    unfold translateRun
    rw [if_neg ?_]
    · exact ⟨_, _, rfl⟩
    · rcases h with h | h
      · simp [Option.isNone_iff_eq_none, Option.isSome_iff_exists] at *
        obtain ⟨k, hk⟩ := h
        simp [hk]
      · simp [h]
  · simp [List.length_map, List.enum_length]
  · intro i w m hw ho
    rw [enum_map_idx, hw]
    simp only [Option.map_some']
    rw [ho]
    rfl
  · intro j h
    rw [enum_map_idx, enum_map_idx]
    cases (planWork (planSteps config options fsExists pe sources)).get? j with
    | none => simp
    | some w => simp [h]

/-- C8 witness: a concrete run with one unit whose translation call fails
produces the typed error result for that unit. -/
theorem c8_failure_isolation_witness :
    ((planWork (planSteps
        ⟨("gpt-4.1".data), ("src/content/pages".data), ("/root".data),
          [("en".data), ("ru".data)], ("en".data), true⟩
        ⟨none, false, false⟩ (fun _ => false) (fun _ _ => false)
        [⟨("about.md".data), ("about.md".data), ("en".data),
          [(titleKey, YVal.scalar ("A".data))], ("body".data),
          ("---\ntitle: A\n---\nbody\n".data), ("abc123".data),
          some [("ru".data)]⟩])).enum.map
      (fun iw => (execUnit
        ⟨("gpt-4.1".data), ("src/content/pages".data), ("/root".data),
          [("en".data), ("ru".data)], ("en".data), true⟩
        ("2025-01-01".data) ((fun _ => Except.error ("boom".data)) iw.1) iw.2).1)).get? 0
      = some ⟨("about.md".data), ("ru/about.md".data), ("ru".data),
          .error, some ("boom".data), []⟩ := by
  have h := (c8_failure_isolation
    ⟨("gpt-4.1".data), ("src/content/pages".data), ("/root".data),
      [("en".data), ("ru".data)], ("en".data), true⟩
    ⟨none, false, false⟩ (some ("k".data))
    [⟨("about.md".data), ("about.md".data), ("en".data),
      [(titleKey, YVal.scalar ("A".data))], ("body".data),
      ("---\ntitle: A\n---\nbody\n".data), ("abc123".data),
      some [("ru".data)]⟩]
    (fun _ => false) (fun _ _ => false)
    (fun _ => Except.error ("boom".data)) (fun _ => Except.error ("boom".data))
    ("2025-01-01".data)).2.2.2.1 0
    ⟨⟨("about.md".data), ("about.md".data), ("en".data),
      [(titleKey, YVal.scalar ("A".data))], ("body".data),
      ("---\ntitle: A\n---\nbody\n".data), ("abc123".data),
      some [("ru".data)]⟩, ("ru".data), ("ru/about.md".data),
      ("/root/src/content/pages/ru/about.md".data)⟩
    ("boom".data) (by decide) rfl
  exact h

theorem planOne_dryRun (config : ResolvedConfig) (options : TranslateOptions)
    (fsExists : Str → Bool) (pe : Str → Str → Bool)
    (s : SourceFile) (t : Str) (hdry : options.dryRun = true) :
    planOne config options fsExists pe s t
      = .done (dryRunResult config options fsExists pe s t) := by
  cases hf : fsExists (joinPath (joinPath config.root config.contentDir)
      (getTargetPath s.relativePath s.locale t config)) <;>
    cases hp : permalinkHit pe s t <;>
    cases hforce : options.force <;>
    simp [planOne, dryRunResult, hdry, hf, hp, hforce]

theorem map_congr_own {α β : Type} {f g : α → β} (l : List α)
    (h : ∀ a ∈ l, f a = g a) : l.map f = l.map g := by
  induction l with
  | nil => rfl
  | cons a as ih =>
    simp only [List.map_cons]
    rw [h a (by simp), ih (fun x hx => h x (by simp [hx]))]

theorem planResults_map_done {β : Type} (g : β → TranslationResult) (l : List β) :
    planResults (l.map (fun u => PlanStep.done (g u))) = l.map g := by
  induction l with
  | nil => rfl
  | cons x xs ih =>
    simp only [List.map_cons, planResults, List.filterMap_cons] at *
    rw [ih]

theorem planWork_map_done {β : Type} (g : β → TranslationResult) (l : List β) :
    planWork (l.map (fun u => PlanStep.done (g u))) = [] := by
  induction l with
  | nil => rfl
  | cons x xs ih =>
    simp only [List.map_cons, planWork, List.filterMap_cons] at *
    exact ih

/-!
## Claim C10: dry-run is write-free
-/

/-- C10: with the dryRun option set, `translate` performs no file writes
(the write list is empty), succeeds without an API key (the key argument
is arbitrary, including none, and the translation oracle is never
consulted), and reports each planned unit as skipped exactly when its
target already exists or an existing translation is found by permalink
(without force), and as created otherwise - never as an error. -/
theorem c10_dry_run_write_free (config : ResolvedConfig) (options : TranslateOptions)
    (apiKey : Option Str) (sources : List SourceFile)
    (fsExists : Str → Bool) (pe : Str → Str → Bool)
    (oracle : Nat → Except Str TPayload) (today : Str)
    (hdry : options.dryRun = true) :
    translateRun config options apiKey sources fsExists pe oracle today
      = .ok ((unitsOf (filteredSources options sources)).map
          (fun u => dryRunResult config options fsExists pe u.1 u.2), []) ∧
    ∀ r ∈ (unitsOf (filteredSources options sources)).map
        (fun u => dryRunResult config options fsExists pe u.1 u.2),
      r.status = .skipped ∨ r.status = .created := by
  have hsteps : planSteps config options fsExists pe sources
      = (unitsOf (filteredSources options sources)).map
        (fun u => PlanStep.done (dryRunResult config options fsExists pe u.1 u.2)) := by
    unfold planSteps
    apply map_congr_own
    intro u hu
    exact planOne_dryRun config options fsExists pe u.1 u.2 hdry
  constructor
  · unfold translateRun
    rw [if_neg (by simp [hdry])]
    rw [hsteps, planResults_map_done, planWork_map_done]
    simp
  · intro r hr
    obtain ⟨u, hu, rfl⟩ := List.mem_map.mp hr
    unfold dryRunResult
    split <;> simp

/-- C10 witness: a concrete dry run without an API key over one opted-in
source file with a failing translation oracle succeeds, writes nothing
and reports only skipped/created statuses. -/
theorem c10_dry_run_write_free_witness :
    translateRun
        ⟨("gpt-4.1".data), ("src/content/pages".data), ("/root".data),
          [("en".data), ("ru".data)], ("en".data), true⟩
        ⟨none, true, false⟩ none
        [⟨("about.md".data), ("about.md".data), ("en".data),
          [(titleKey, YVal.scalar ("A".data))], ("body".data),
          ("---\ntitle: A\n---\nbody\n".data), ("abc123".data),
          some [("ru".data)]⟩]
        (fun _ => false) (fun _ _ => false)
        (fun _ => Except.error ("boom".data)) ("2025-01-01".data)
      = .ok ((unitsOf (filteredSources ⟨none, true, false⟩
          [⟨("about.md".data), ("about.md".data), ("en".data),
            [(titleKey, YVal.scalar ("A".data))], ("body".data),
            ("---\ntitle: A\n---\nbody\n".data), ("abc123".data),
            some [("ru".data)]⟩])).map
          (fun u => dryRunResult
            ⟨("gpt-4.1".data), ("src/content/pages".data), ("/root".data),
              [("en".data), ("ru".data)], ("en".data), true⟩
            ⟨none, true, false⟩ (fun _ => false) (fun _ _ => false) u.1 u.2), []) ∧
    ∀ r ∈ (unitsOf (filteredSources ⟨none, true, false⟩
        [⟨("about.md".data), ("about.md".data), ("en".data),
          [(titleKey, YVal.scalar ("A".data))], ("body".data),
          ("---\ntitle: A\n---\nbody\n".data), ("abc123".data),
          some [("ru".data)]⟩])).map
        (fun u => dryRunResult
          ⟨("gpt-4.1".data), ("src/content/pages".data), ("/root".data),
            [("en".data), ("ru".data)], ("en".data), true⟩
          ⟨none, true, false⟩ (fun _ => false) (fun _ _ => false) u.1 u.2),
      r.status = .skipped ∨ r.status = .created :=
  c10_dry_run_write_free
    ⟨("gpt-4.1".data), ("src/content/pages".data), ("/root".data),
      [("en".data), ("ru".data)], ("en".data), true⟩
    ⟨none, true, false⟩ none
    [⟨("about.md".data), ("about.md".data), ("en".data),
      [(titleKey, YVal.scalar ("A".data))], ("body".data),
      ("---\ntitle: A\n---\nbody\n".data), ("abc123".data),
      some [("ru".data)]⟩]
    (fun _ => false) (fun _ _ => false)
    (fun _ => Except.error ("boom".data)) ("2025-01-01".data) rfl
